import Mathlib

/-!
Verification of the day-6 guard simulation (grid walk with obstruction-loop
detection) of the `advent-of-code-2024` repository, shallowly embedded from
`src/day_06/src/lib.rs`.

Embedding conventions:
* Rust `usize` is modelled as `Nat`; `usize::checked_add_signed` becomes
  `checkedAddSigned : Nat → Int → Option Nat` (the walk stays far below
  `usize::MAX`, and a hypothetical wrap at the top end would hit the
  `next_x >= map_height` bound check exactly like the unbounded model).
* `HashSet` values are modelled as lists used only through membership,
  insertion-if-absent and cardinality, which matches `HashSet::insert`,
  `HashSet::contains` and `HashSet::len` on the deduplicated lists the
  code builds.
* The Rust `loop` bodies of `walk_maze` and `walk_maze_and_check_for_loop`
  become one-step functions (`stepWalk`, `stepLoop`) plus fuelled runners;
  `none` from a runner means the fuel ran out before the loop returned.
* `Problem::from_str` receives its input as the list of lines
  (the output of Rust's `str::lines`, one `List Char` per line); the result
  `none` models a panic (`unwrap` on an empty input, `unreachable!` on an
  unknown map symbol), while `some r` models a normal return of `r`.
-/

namespace Day06

/-- The four guard facings of the source enum `Direction`. -/
inductive Direction
| Up
| Right
| Down
| Left
deriving DecidableEq

/-- Source `next_direction`: clockwise rotation Up→Right→Down→Left→Up. -/
def next_direction : Direction → Direction
  | .Up => .Right
  | .Right => .Down
  | .Down => .Left
  | .Left => .Up

/-- Source `get_movement_delta`: unit vector of a facing, rows grow downward. -/
def get_movement_delta : Direction → Int × Int
  | .Up => (-1, 0)
  | .Right => (0, 1)
  | .Down => (1, 0)
  | .Left => (0, -1)

/-- Model of `usize::checked_add_signed` on the `Nat` model of `usize`:
`none` exactly when the signed addition would go below zero. -/
def checkedAddSigned (n : Nat) (d : Int) : Option Nat :=
  if 0 ≤ (n : Int) + d then some ((n : Int) + d).toNat else none

/-- The parsed puzzle, mirroring the source struct `Problem`. -/
structure Problem where
  map_height : Nat
  map_width : Nat
  obstacles : List (Nat × Nat)
  starting_position : Nat × Nat
deriving DecidableEq

/-- One row of the parsing pass of `Problem::from_str`: walks the characters
of line `x` starting at column `y`, extending the obstacle accumulator on
each `#`, overwriting the starting position on each `^`, and returning
`none` (the `unreachable!` panic) on any other non-`.` character. -/
def scanRow (x : Nat) : Nat → List Char → List (Nat × Nat) → Nat × Nat →
    Option (List (Nat × Nat) × (Nat × Nat))
  | _, [], obs, st => some (obs, st)
  | y, c :: cs, obs, st =>
    if c = '^' then scanRow x (y + 1) cs obs (x, y)
    else if c = '.' then scanRow x (y + 1) cs obs st
    else if c = '#' then scanRow x (y + 1) cs (obs ++ [(x, y)]) st
    else none

/-- The row-major parsing pass of `Problem::from_str` over all lines. -/
def scanRows : Nat → List (List Char) → List (Nat × Nat) → Nat × Nat →
    Option (List (Nat × Nat) × (Nat × Nat))
  | _, [], obs, st => some (obs, st)
  | x, l :: ls, obs, st =>
    match scanRow x 0 l obs st with
    | none => none
    | some (obs2, st2) => scanRows (x + 1) ls obs2 st2

/-- Model of `Problem::from_str`, taking the input as its list of lines.
`none` models a panic: the `unwrap` of the first line when there are zero
lines, or `unreachable!` on an unknown map symbol.  `some r` models a
normal return of the `Result` value `r`; the source builds `Err` nowhere,
so only `Except.ok` values can appear. -/
def from_str (ls : List (List Char)) : Option (Except String Problem) :=
  match ls with
  | [] => none
  | l0 :: _ =>
    match scanRows 0 ls [] (0, 0) with
    | none => none
    | some (obs, st) => some (Except.ok ⟨ls.length, l0.length, obs, st⟩)

/-- `HashSet::insert` on the list model: add the element if absent. -/
def hsInsert (a : Nat × Nat) (l : List (Nat × Nat)) : List (Nat × Nat) :=
  if a ∈ l then l else a :: l

/-- The mutable state of the source `walk_maze` loop. -/
structure WalkState where
  visited_spaces : List (Nat × Nat)
  current_position : Nat × Nat
  movement_direction : Direction
deriving DecidableEq

/-- One iteration of the `walk_maze` loop body: `none` is the `break`
(guard leaves the grid), `some` is the state at the next iteration. -/
def stepWalk (obstacles : List (Nat × Nat)) (map_height map_width : Nat)
    (s : WalkState) : Option WalkState :=
  let movement_delta := get_movement_delta s.movement_direction
  match checkedAddSigned s.current_position.1 movement_delta.1,
      checkedAddSigned s.current_position.2 movement_delta.2 with
  | some next_x, some next_y =>
    if next_x ≥ map_height ∨ next_y ≥ map_width then none
    else if (next_x, next_y) ∈ obstacles then
      some ⟨s.visited_spaces, s.current_position, next_direction s.movement_direction⟩
    else
      some ⟨hsInsert (next_x, next_y) s.visited_spaces, (next_x, next_y),
        s.movement_direction⟩
  | _, _ => none

/-- The fuelled `walk_maze` loop: returns the visited set at `break`,
or `none` if the fuel is exhausted first. -/
def walk_maze_fuel (obstacles : List (Nat × Nat)) (map_height map_width : Nat) :
    Nat → WalkState → Option (List (Nat × Nat))
  | 0, _ => none
  | fuel + 1, s =>
    match stepWalk obstacles map_height map_width s with
    | none => some s.visited_spaces
    | some s2 => walk_maze_fuel obstacles map_height map_width fuel s2

/-- The initial `walk_maze` state: visited = `{start}`, position = start,
facing Up. -/
def initWalk (starting_position : Nat × Nat) : WalkState :=
  ⟨[starting_position], starting_position, .Up⟩

/-- Source `walk_maze` (with explicit fuel): the number of distinct visited
cells when the guard exits within `fuel` iterations. -/
def walk_maze (fuel : Nat) (starting_position : Nat × Nat)
    (obstacles : List (Nat × Nat)) (map_height map_width : Nat) : Option Nat :=
  (walk_maze_fuel obstacles map_height map_width fuel
    (initWalk starting_position)).map List.length

/-- Source `solve_part_1` (with explicit fuel). -/
def solve_part_1 (fuel : Nat) (p : Problem) : Option Nat :=
  walk_maze fuel p.starting_position p.obstacles p.map_height p.map_width

/-- The mutable state of the source `walk_maze_and_check_for_loop` loop. -/
structure LoopState where
  collided_obstacles : List (Nat × Nat × Direction)
  current_position : Nat × Nat
  movement_direction : Direction
deriving DecidableEq

/-- Outcome of one iteration of the loop-check body: `done b` models
`return true` / `break`-then-`return false`, `cont` the next iteration. -/
inductive LoopStep
| done (b : Bool)
| cont (s : LoopState)
deriving DecidableEq

/-- One iteration of the `walk_maze_and_check_for_loop` loop body.  A
collision with a remembered `(cell, facing)` pair returns `true`; a fresh
collision is recorded (before rotating) and the facing rotates clockwise;
leaving the grid returns `false`. -/
def stepLoop (obstacles : List (Nat × Nat)) (map_height map_width : Nat)
    (s : LoopState) : LoopStep :=
  let movement_delta := get_movement_delta s.movement_direction
  match checkedAddSigned s.current_position.1 movement_delta.1,
      checkedAddSigned s.current_position.2 movement_delta.2 with
  | some next_x, some next_y =>
    if next_x ≥ map_height ∨ next_y ≥ map_width then .done false
    else if (next_x, next_y) ∈ obstacles then
      if (next_x, next_y, s.movement_direction) ∈ s.collided_obstacles then
        .done true
      else
        .cont ⟨(next_x, next_y, s.movement_direction) :: s.collided_obstacles,
          s.current_position, next_direction s.movement_direction⟩
    else .cont ⟨s.collided_obstacles, (next_x, next_y), s.movement_direction⟩
  | _, _ => .done false

/-- The fuelled `walk_maze_and_check_for_loop` loop. -/
def walk_maze_and_check_for_loop_fuel (obstacles : List (Nat × Nat))
    (map_height map_width : Nat) : Nat → LoopState → Option Bool
  | 0, _ => none
  | fuel + 1, s =>
    match stepLoop obstacles map_height map_width s with
    | .done b => some b
    | .cont s2 => walk_maze_and_check_for_loop_fuel obstacles map_height map_width fuel s2

/-- The initial loop-check state: empty collision log. -/
def initLoop (starting_position : Nat × Nat) (starting_direction : Direction) :
    LoopState :=
  ⟨[], starting_position, starting_direction⟩

/-- Source `walk_maze_and_check_for_loop` (with explicit fuel). -/
def walk_maze_and_check_for_loop (fuel : Nat) (starting_position : Nat × Nat)
    (starting_direction : Direction) (obstacles : List (Nat × Nat))
    (map_height map_width : Nat) : Option Bool :=
  walk_maze_and_check_for_loop_fuel obstacles map_height map_width fuel
    (initLoop starting_position starting_direction)

instance : DecidableEq (Except String Problem) := fun a b =>
  match a, b with
  | .ok x, .ok y =>
    if h : x = y then .isTrue (by rw [h]) else .isFalse (by simp [h])
  | .error x, .error y =>
    if h : x = y then .isTrue (by rw [h]) else .isFalse (by simp [h])
  | .ok _, .error _ => .isFalse (by simp)
  | .error _, .ok _ => .isFalse (by simp)

/-! ### Specification-side description of the movement model

`classify` evaluates, for a given position and facing, which of the three
branches of the shared loop body applies: the guard steps out of the grid,
collides with an obstacle, or advances one cell.  `pureEvents` and
`pureExits` describe the guard's trajectory without any collision log:
the list of collision events (obstacle cell plus the facing held when the
collision happens, i.e. before the rotation), and whether the guard leaves
the grid within a given number of iterations. -/

/-- Which branch of the loop body applies at `(pos, dir)`. -/
inductive MoveKind
| out
| collide (cell : Nat × Nat)
| advance (cell : Nat × Nat)
deriving DecidableEq

/-- Branch selection of the shared loop body of `walk_maze` and
`walk_maze_and_check_for_loop`. -/
def classify (obstacles : List (Nat × Nat)) (map_height map_width : Nat)
    (pos : Nat × Nat) (dir : Direction) : MoveKind :=
  let movement_delta := get_movement_delta dir
  match checkedAddSigned pos.1 movement_delta.1,
      checkedAddSigned pos.2 movement_delta.2 with
  | some next_x, some next_y =>
    if next_x ≥ map_height ∨ next_y ≥ map_width then .out
    else if (next_x, next_y) ∈ obstacles then .collide (next_x, next_y)
    else .advance (next_x, next_y)
  | _, _ => .out

/-- The collision events (obstacle cell, facing at collision time — before
the rotation) of the first `n` iterations of the guard's trajectory. -/
def pureEvents (obstacles : List (Nat × Nat)) (map_height map_width : Nat) :
    Nat → Nat × Nat → Direction → List (Nat × Nat × Direction)
  | 0, _, _ => []
  | n + 1, pos, dir =>
    match classify obstacles map_height map_width pos dir with
    | .out => []
    | .collide c =>
        (c.1, c.2, dir) :: pureEvents obstacles map_height map_width n pos (next_direction dir)
    | .advance c => pureEvents obstacles map_height map_width n c dir

/-- Whether the guard steps outside the grid within `n` iterations. -/
def pureExits (obstacles : List (Nat × Nat)) (map_height map_width : Nat) :
    Nat → Nat × Nat → Direction → Bool
  | 0, _, _ => false
  | n + 1, pos, dir =>
    match classify obstacles map_height map_width pos dir with
    | .out => true
    | .collide _ => pureExits obstacles map_height map_width n pos (next_direction dir)
    | .advance c => pureExits obstacles map_height map_width n c dir

/-! ### Reachability and termination measures -/

/-- The loop-check state after `k` iterations, `none` if the loop returned
before then. -/
def loopReach (obstacles : List (Nat × Nat)) (map_height map_width : Nat) :
    Nat → LoopState → Option LoopState
  | 0, s => some s
  | k + 1, s =>
    match stepLoop obstacles map_height map_width s with
    | .done _ => none
    | .cont s2 => loopReach obstacles map_height map_width k s2

/-- All directions, as a finite set. -/
def allDirections : Finset Direction := {.Up, .Right, .Down, .Left}

/-- All `(cell, facing)` pairs that can ever be recorded in the collision
log of an `map_height × map_width` grid. -/
def allowedCollisions (map_height map_width : Nat) : Finset (Nat × Nat × Direction) :=
  Finset.range map_height ×ˢ Finset.range map_width ×ˢ allDirections

/-- Number of collision-log entries that can still be added: the measure
that strictly decreases at every rotation of the loop check. -/
def capacityL (map_height map_width : Nat) (L : List (Nat × Nat × Direction)) : Nat :=
  ((allowedCollisions map_height map_width) \ L.toFinset).card

/-- Straight-line distance until the guard leaves the grid in its current
facing: the measure that strictly decreases at every advance. -/
def distToExit (map_height map_width : Nat) (pos : Nat × Nat) : Direction → Nat
  | .Up => pos.1
  | .Down => map_height - pos.1
  | .Right => map_width - pos.2
  | .Left => pos.2

/-- The first `n` states of the `walk_maze` loop starting at `s` (stopping
early if the loop breaks). -/
def walkOrbit (obstacles : List (Nat × Nat)) (map_height map_width : Nat) :
    WalkState → Nat → List WalkState
  | _, 0 => []
  | s, n + 1 =>
    s :: (match stepWalk obstacles map_height map_width s with
      | none => []
      | some s2 => walkOrbit obstacles map_height map_width s2 n)

/-! ### Concrete fixtures -/

/-- The 10×10 AoC day-6 sample grid (`TEST_INPUT` of the source tests),
as its list of lines. -/
def sampleLines : List (List Char) :=
  ["....#.....".data, ".........#".data, "..........".data, "..#.......".data,
   ".......#..".data, "..........".data, ".#..^.....".data, "........#.".data,
   "#.........".data, "......#...".data]

/-- The parse of the sample grid: row-major obstacle list, start `(6,4)`. -/
def sampleProblem : Problem :=
  ⟨10, 10, [(0,4), (1,9), (3,2), (4,7), (6,1), (7,8), (8,0), (9,6)], (6,4)⟩

/-- A syntactically valid 4×4 grid whose unmodified obstacle layout traps
the guard in a rectangle of four obstacles. -/
def loopGridLines : List (List Char) :=
  [".#..".data, "...#".data, "#^..".data, "..#.".data]

/-- The parse of `loopGridLines`. -/
def loopProblem : Problem := ⟨4, 4, [(0,1), (1,3), (2,0), (3,2)], (2,1)⟩

theorem checkedAddSigned_neg_one (n : Nat) :
    checkedAddSigned n (-1) = if n = 0 then none else some (n - 1) := by
  unfold checkedAddSigned
  cases n with
  | zero => rw [if_neg (by omega), if_pos rfl]
  | succ m =>
    rw [if_pos (by omega), if_neg (by omega)]
    congr 1
    omega

theorem checkedAddSigned_zero (n : Nat) : checkedAddSigned n 0 = some n := by
  unfold checkedAddSigned
  rw [if_pos (by omega)]
  congr 1

theorem checkedAddSigned_one (n : Nat) : checkedAddSigned n 1 = some (n + 1) := by
  unfold checkedAddSigned
  rw [if_pos (by omega)]
  congr 1

theorem classify_up (O : List (Nat × Nat)) (H W : Nat) (pos : Nat × Nat) :
    classify O H W pos .Up =
      if pos.1 = 0 then .out
      else if pos.1 - 1 ≥ H ∨ pos.2 ≥ W then .out
      else if (pos.1 - 1, pos.2) ∈ O then .collide (pos.1 - 1, pos.2)
      else .advance (pos.1 - 1, pos.2) := by
  by_cases h0 : pos.1 = 0 <;>
    simp [classify, get_movement_delta, checkedAddSigned_neg_one, checkedAddSigned_zero, h0]

theorem classify_down (O : List (Nat × Nat)) (H W : Nat) (pos : Nat × Nat) :
    classify O H W pos .Down =
      if pos.1 + 1 ≥ H ∨ pos.2 ≥ W then .out
      else if (pos.1 + 1, pos.2) ∈ O then .collide (pos.1 + 1, pos.2)
      else .advance (pos.1 + 1, pos.2) := by
  simp [classify, get_movement_delta, checkedAddSigned_one, checkedAddSigned_zero]

theorem classify_right (O : List (Nat × Nat)) (H W : Nat) (pos : Nat × Nat) :
    classify O H W pos .Right =
      if pos.1 ≥ H ∨ pos.2 + 1 ≥ W then .out
      else if (pos.1, pos.2 + 1) ∈ O then .collide (pos.1, pos.2 + 1)
      else .advance (pos.1, pos.2 + 1) := by
  simp [classify, get_movement_delta, checkedAddSigned_one, checkedAddSigned_zero]

theorem classify_left (O : List (Nat × Nat)) (H W : Nat) (pos : Nat × Nat) :
    classify O H W pos .Left =
      if pos.2 = 0 then .out
      else if pos.1 ≥ H ∨ pos.2 - 1 ≥ W then .out
      else if (pos.1, pos.2 - 1) ∈ O then .collide (pos.1, pos.2 - 1)
      else .advance (pos.1, pos.2 - 1) := by
  by_cases h0 : pos.2 = 0 <;>
    simp [classify, get_movement_delta, checkedAddSigned_neg_one, checkedAddSigned_zero, h0]

theorem stepWalk_eq (O : List (Nat × Nat)) (H W : Nat) (s : WalkState) :
    stepWalk O H W s =
      match classify O H W s.current_position s.movement_direction with
      | .out => none
      | .collide _ =>
          some ⟨s.visited_spaces, s.current_position, next_direction s.movement_direction⟩
      | .advance c => some ⟨hsInsert c s.visited_spaces, c, s.movement_direction⟩ := by
  cases hx : checkedAddSigned s.current_position.1
      (get_movement_delta s.movement_direction).1 with
  | none => simp [stepWalk, classify, hx]
  | some nx =>
    cases hy : checkedAddSigned s.current_position.2
        (get_movement_delta s.movement_direction).2 with
    | none => simp [stepWalk, classify, hx, hy]
    | some ny =>
      simp only [stepWalk, classify, hx, hy]
      by_cases hb : nx ≥ H ∨ ny ≥ W
      · simp [hb]
      · by_cases ho : (nx, ny) ∈ O <;> simp [hb, ho]

theorem stepLoop_eq (O : List (Nat × Nat)) (H W : Nat) (s : LoopState) :
    stepLoop O H W s =
      match classify O H W s.current_position s.movement_direction with
      | .out => .done false
      | .collide c =>
          if (c.1, c.2, s.movement_direction) ∈ s.collided_obstacles then .done true
          else .cont ⟨(c.1, c.2, s.movement_direction) :: s.collided_obstacles,
            s.current_position, next_direction s.movement_direction⟩
      | .advance c => .cont ⟨s.collided_obstacles, c, s.movement_direction⟩ := by
  cases hx : checkedAddSigned s.current_position.1
      (get_movement_delta s.movement_direction).1 with
  | none => simp [stepLoop, classify, hx]
  | some nx =>
    cases hy : checkedAddSigned s.current_position.2
        (get_movement_delta s.movement_direction).2 with
    | none => simp [stepLoop, classify, hx, hy]
    | some ny =>
      simp only [stepLoop, classify, hx, hy]
      by_cases hb : nx ≥ H ∨ ny ≥ W
      · simp [hb]
      · by_cases ho : (nx, ny) ∈ O <;> simp [hb, ho]

theorem classify_collide (O : List (Nat × Nat)) (H W : Nat) (pos : Nat × Nat)
    (dir : Direction) (c : Nat × Nat)
    (h : classify O H W pos dir = .collide c) : c.1 < H ∧ c.2 < W ∧ c ∈ O := by
  cases hx : checkedAddSigned pos.1 (get_movement_delta dir).1 with
  | none => simp [classify, hx] at h
  | some nx =>
    cases hy : checkedAddSigned pos.2 (get_movement_delta dir).2 with
    | none => simp [classify, hx, hy] at h
    | some ny =>
      simp only [classify, hx, hy] at h
      by_cases hb : nx ≥ H ∨ ny ≥ W
      · simp [hb] at h
      · by_cases ho : (nx, ny) ∈ O
        · rw [if_neg hb, if_pos ho] at h
          cases h
          exact ⟨by omega, by omega, ho⟩
        · simp [hb, ho] at h

theorem classify_advance (O : List (Nat × Nat)) (H W : Nat) (pos : Nat × Nat)
    (dir : Direction) (c : Nat × Nat)
    (h : classify O H W pos dir = .advance c) : c.1 < H ∧ c.2 < W := by
  cases hx : checkedAddSigned pos.1 (get_movement_delta dir).1 with
  | none => simp [classify, hx] at h
  | some nx =>
    cases hy : checkedAddSigned pos.2 (get_movement_delta dir).2 with
    | none => simp [classify, hx, hy] at h
    | some ny =>
      simp only [classify, hx, hy] at h
      by_cases hb : nx ≥ H ∨ ny ≥ W
      · simp [hb] at h
      · by_cases ho : (nx, ny) ∈ O
        · simp [hb, ho] at h
        · rw [if_neg hb, if_neg ho] at h
          cases h
          exact ⟨by omega, by omega⟩

theorem classify_advance_dist (O : List (Nat × Nat)) (H W : Nat) (pos : Nat × Nat)
    (dir : Direction) (c : Nat × Nat)
    (h : classify O H W pos dir = .advance c) :
    distToExit H W c dir < distToExit H W pos dir := by
  cases dir with
  | Up =>
    rw [classify_up] at h
    by_cases h0 : pos.1 = 0
    · simp [h0] at h
    · rw [if_neg h0] at h
      by_cases hb : pos.1 - 1 ≥ H ∨ pos.2 ≥ W
      · simp [hb] at h
      · rw [if_neg hb] at h
        by_cases ho : (pos.1 - 1, pos.2) ∈ O
        · simp [ho] at h
        · rw [if_neg ho] at h
          cases h
          simp only [distToExit]
          omega
  | Down =>
    rw [classify_down] at h
    by_cases hb : pos.1 + 1 ≥ H ∨ pos.2 ≥ W
    · simp [hb] at h
    · rw [if_neg hb] at h
      by_cases ho : (pos.1 + 1, pos.2) ∈ O
      · simp [ho] at h
      · rw [if_neg ho] at h
        cases h
        simp only [distToExit]
        omega
  | Right =>
    rw [classify_right] at h
    by_cases hb : pos.1 ≥ H ∨ pos.2 + 1 ≥ W
    · simp [hb] at h
    · rw [if_neg hb] at h
      by_cases ho : (pos.1, pos.2 + 1) ∈ O
      · simp [ho] at h
      · rw [if_neg ho] at h
        cases h
        simp only [distToExit]
        omega
  | Left =>
    rw [classify_left] at h
    by_cases h0 : pos.2 = 0
    · simp [h0] at h
    · rw [if_neg h0] at h
      by_cases hb : pos.1 ≥ H ∨ pos.2 - 1 ≥ W
      · simp [hb] at h
      · rw [if_neg hb] at h
        by_cases ho : (pos.1, pos.2 - 1) ∈ O
        · simp [ho] at h
        · rw [if_neg ho] at h
          cases h
          simp only [distToExit]
          omega

theorem mem_allDirections (d : Direction) : d ∈ allDirections := by
  cases d <;> decide

theorem mem_allowedCollisions (H W : Nat) (e : Nat × Nat × Direction)
    (h1 : e.1 < H) (h2 : e.2.1 < W) : e ∈ allowedCollisions H W := by
  simp only [allowedCollisions, Finset.mem_product, Finset.mem_range]
  exact ⟨h1, h2, mem_allDirections e.2.2⟩

theorem card_allowedCollisions (H W : Nat) :
    (allowedCollisions H W).card = H * W * 4 := by
  simp only [allowedCollisions, Finset.card_product, Finset.card_range]
  have h4 : allDirections.card = 4 := by decide
  rw [h4, Nat.mul_assoc]

theorem capacityL_cons_lt (H W : Nat) (L : List (Nat × Nat × Direction))
    (e : Nat × Nat × Direction) (h1 : e.1 < H) (h2 : e.2.1 < W) (hm : e ∉ L) :
    capacityL H W (e :: L) < capacityL H W L := by
  unfold capacityL
  apply Finset.card_lt_card
  rw [List.toFinset_cons]
  have hsub : allowedCollisions H W \ insert e L.toFinset ⊆
      allowedCollisions H W \ L.toFinset :=
    Finset.sdiff_subset_sdiff (le_refl _) (Finset.subset_insert _ _)
  rw [Finset.ssubset_iff_of_subset hsub]
  refine ⟨e, ?_, ?_⟩
  · rw [Finset.mem_sdiff]
    refine ⟨mem_allowedCollisions H W e h1 h2, ?_⟩
    rw [List.mem_toFinset]
    exact hm
  · simp

/-- The invariant maintained on the collision log: no duplicates, and every
entry is an in-bounds cell. -/
def LoopInv (H W : Nat) (L : List (Nat × Nat × Direction)) : Prop :=
  L.Nodup ∧ ∀ e ∈ L, e.1 < H ∧ e.2.1 < W

theorem loopInv_nil (H W : Nat) : LoopInv H W [] :=
  ⟨List.nodup_nil, by intro e he; cases he⟩

theorem stepLoop_inv (O : List (Nat × Nat)) (H W : Nat) (s s2 : LoopState)
    (h : stepLoop O H W s = .cont s2) (hinv : LoopInv H W s.collided_obstacles) :
    LoopInv H W s2.collided_obstacles := by
  rw [stepLoop_eq] at h
  cases hcl : classify O H W s.current_position s.movement_direction with
  | out => rw [hcl] at h; cases h
  | collide c =>
    rw [hcl] at h
    simp only [] at h
    by_cases hm : (c.1, c.2, s.movement_direction) ∈ s.collided_obstacles
    · rw [if_pos hm] at h; cases h
    · rw [if_neg hm] at h
      cases h
      obtain ⟨hc1, hc2, _⟩ := classify_collide O H W _ _ c hcl
      refine ⟨List.nodup_cons.mpr ⟨hm, hinv.1⟩, ?_⟩
      intro e he
      rcases List.mem_cons.mp he with he | he
      · subst he; exact ⟨hc1, hc2⟩
      · exact hinv.2 e he
  | advance c =>
    rw [hcl] at h
    cases h
    exact hinv

theorem loopReach_inv (O : List (Nat × Nat)) (H W : Nat) :
    ∀ (k : Nat) (s s2 : LoopState), loopReach O H W k s = some s2 →
      LoopInv H W s.collided_obstacles → LoopInv H W s2.collided_obstacles := by
  intro k
  induction k with
  | zero =>
    intro s s2 h hinv
    cases h
    exact hinv
  | succ k ih =>
    intro s s2 h hinv
    rw [loopReach] at h
    cases hstep : stepLoop O H W s with
    | done b => rw [hstep] at h; cases h
    | cont s3 =>
      rw [hstep] at h
      exact ih s3 s2 h (stepLoop_inv O H W s s3 hstep hinv)

theorem loopInv_length_le (H W : Nat) (L : List (Nat × Nat × Direction))
    (h : LoopInv H W L) : L.length ≤ H * W * 4 := by
  obtain ⟨hnd, hb⟩ := h
  have hsub : L.toFinset ⊆ allowedCollisions H W := by
    intro e he
    rw [List.mem_toFinset] at he
    obtain ⟨h1, h2⟩ := hb e he
    exact mem_allowedCollisions H W e h1 h2
  calc L.length = L.toFinset.card := (List.toFinset_card_of_nodup hnd).symm
    _ ≤ (allowedCollisions H W).card := Finset.card_le_card hsub
    _ = H * W * 4 := card_allowedCollisions H W

theorem step_cases (O : List (Nat × Nat)) (H W : Nat) (s s2 : LoopState)
    (h : stepLoop O H W s = .cont s2) :
    capacityL H W s2.collided_obstacles < capacityL H W s.collided_obstacles ∨
      (s2.collided_obstacles = s.collided_obstacles ∧
        distToExit H W s2.current_position s2.movement_direction <
          distToExit H W s.current_position s.movement_direction) := by
  rw [stepLoop_eq] at h
  cases hcl : classify O H W s.current_position s.movement_direction with
  | out => rw [hcl] at h; cases h
  | collide c =>
    rw [hcl] at h
    simp only [] at h
    by_cases hm : (c.1, c.2, s.movement_direction) ∈ s.collided_obstacles
    · rw [if_pos hm] at h; cases h
    · rw [if_neg hm] at h
      cases h
      left
      obtain ⟨hc1, hc2, _⟩ := classify_collide O H W _ _ c hcl
      exact capacityL_cons_lt H W s.collided_obstacles (c.1, c.2, s.movement_direction)
        hc1 hc2 hm
  | advance c =>
    rw [hcl] at h
    cases h
    right
    exact ⟨rfl, classify_advance_dist O H W _ _ c hcl⟩

theorem hasLoop_total (O : List (Nat × Nat)) (H W : Nat) (s : LoopState) :
    ∃ n b, walk_maze_and_check_for_loop_fuel O H W n s = some b := by
  have main : ∀ cap d (s : LoopState), capacityL H W s.collided_obstacles = cap →
      distToExit H W s.current_position s.movement_direction = d →
      ∃ n b, walk_maze_and_check_for_loop_fuel O H W n s = some b := by
    intro cap
    induction cap using Nat.strong_induction_on with
    | _ cap ihc =>
      intro d
      induction d using Nat.strong_induction_on with
      | _ d ihd =>
        intro s hc hd
        cases hstep : stepLoop O H W s with
        | done b =>
          exact ⟨1, b, by simp [walk_maze_and_check_for_loop_fuel, hstep]⟩
        | cont s2 =>
          rcases step_cases O H W s s2 hstep with hlt | ⟨heq, hdlt⟩
          · obtain ⟨n, b, hn⟩ := ihc (capacityL H W s2.collided_obstacles)
              (by omega) (distToExit H W s2.current_position s2.movement_direction)
              s2 rfl rfl
            exact ⟨n + 1, b, by simp [walk_maze_and_check_for_loop_fuel, hstep, hn]⟩
          · obtain ⟨n, b, hn⟩ := ihd
              (distToExit H W s2.current_position s2.movement_direction)
              (by omega) s2 (by rw [heq, hc]) rfl
            exact ⟨n + 1, b, by simp [walk_maze_and_check_for_loop_fuel, hstep, hn]⟩
  exact main _ _ s rfl rfl

theorem loop_true_iff (O : List (Nat × Nat)) (H W : Nat) :
    ∀ (n : Nat) (L : List (Nat × Nat × Direction)) (pos : Nat × Nat) (dir : Direction),
      L.Nodup →
      (walk_maze_and_check_for_loop_fuel O H W n ⟨L, pos, dir⟩ = some true ↔
        ¬ (L ++ pureEvents O H W n pos dir).Nodup) := by
  intro n
  induction n with
  | zero =>
    intro L pos dir hL
    simp [walk_maze_and_check_for_loop_fuel, pureEvents, hL]
  | succ n ih =>
    intro L pos dir hL
    rw [walk_maze_and_check_for_loop_fuel, stepLoop_eq]
    cases hcl : classify O H W pos dir with
    | out =>
      simp only [hcl, pureEvents]
      simp [hL]
    | collide c =>
      simp only [hcl, pureEvents]
      by_cases hm : (c.1, c.2, dir) ∈ L
      · rw [if_pos hm]
        constructor
        · intro _
          intro hnd
          rw [List.nodup_append] at hnd
          exact hnd.2.2 hm (List.mem_cons_self _ _)
        · intro _
          rfl
      · simp only [if_neg hm]
        rw [ih ((c.1, c.2, dir) :: L) pos (next_direction dir)
          (List.nodup_cons.mpr ⟨hm, hL⟩)]
        rw [List.cons_append]
        exact not_congr (List.perm_middle.nodup_iff).symm
    | advance c =>
      simp only [hcl, pureEvents]
      exact ih L c dir hL

theorem loop_false_iff (O : List (Nat × Nat)) (H W : Nat) :
    ∀ (n : Nat) (L : List (Nat × Nat × Direction)) (pos : Nat × Nat) (dir : Direction),
      L.Nodup →
      (walk_maze_and_check_for_loop_fuel O H W n ⟨L, pos, dir⟩ = some false ↔
        pureExits O H W n pos dir = true ∧ (L ++ pureEvents O H W n pos dir).Nodup) := by
  intro n
  induction n with
  | zero =>
    intro L pos dir hL
    simp [walk_maze_and_check_for_loop_fuel, pureExits]
  | succ n ih =>
    intro L pos dir hL
    rw [walk_maze_and_check_for_loop_fuel, stepLoop_eq]
    cases hcl : classify O H W pos dir with
    | out =>
      simp only [hcl, pureEvents, pureExits]
      simp [hL]
    | collide c =>
      simp only [hcl, pureEvents, pureExits]
      by_cases hm : (c.1, c.2, dir) ∈ L
      · rw [if_pos hm]
        constructor
        · intro h
          exact absurd h (by simp)
        · rintro ⟨-, hnd⟩
          rw [List.nodup_append] at hnd
          exact (hnd.2.2 hm (List.mem_cons_self _ _)).elim
      · simp only [if_neg hm]
        rw [ih ((c.1, c.2, dir) :: L) pos (next_direction dir)
          (List.nodup_cons.mpr ⟨hm, hL⟩)]
        rw [List.cons_append]
        exact and_congr_right (fun _ => (List.perm_middle.nodup_iff).symm)
    | advance c =>
      simp only [hcl, pureEvents, pureExits]
      exact ih L c dir hL

theorem hsInsert_self (a : Nat × Nat) (l : List (Nat × Nat)) : a ∈ hsInsert a l := by
  unfold hsInsert
  by_cases h : a ∈ l
  · rw [if_pos h]; exact h
  · rw [if_neg h]; exact List.mem_cons_self a l

theorem hsInsert_mem_iff (b a : Nat × Nat) (l : List (Nat × Nat)) :
    b ∈ hsInsert a l ↔ b = a ∨ b ∈ l := by
  unfold hsInsert
  by_cases h : a ∈ l
  · rw [if_pos h]
    constructor
    · exact Or.inr
    · rintro (rfl | hb)
      · exact h
      · exact hb
  · rw [if_neg h]
    exact List.mem_cons

theorem hsInsert_nodup (a : Nat × Nat) (l : List (Nat × Nat)) (h : l.Nodup) :
    (hsInsert a l).Nodup := by
  unfold hsInsert
  by_cases hm : a ∈ l
  · rw [if_pos hm]; exact h
  · rw [if_neg hm]; exact List.nodup_cons.mpr ⟨hm, h⟩

/-- The invariant maintained on the visited set of `walk_maze`: nonempty,
no duplicates, and — when the start is in bounds — every entry in bounds. -/
def WalkInv (H W : Nat) (s : WalkState) : Prop :=
  s.visited_spaces ≠ [] ∧ s.visited_spaces.Nodup ∧
    ∀ q ∈ s.visited_spaces, q.1 < H ∧ q.2 < W

theorem stepWalk_inv (O : List (Nat × Nat)) (H W : Nat) (s s2 : WalkState)
    (h : stepWalk O H W s = some s2) (hinv : WalkInv H W s) : WalkInv H W s2 := by
  rw [stepWalk_eq] at h
  cases hcl : classify O H W s.current_position s.movement_direction with
  | out => rw [hcl] at h; cases h
  | collide c =>
    rw [hcl] at h
    simp only [] at h
    cases h
    exact hinv
  | advance c =>
    rw [hcl] at h
    simp only [] at h
    cases h
    obtain ⟨hc1, hc2⟩ := classify_advance O H W _ _ c hcl
    refine ⟨?_, ?_, ?_⟩
    · show hsInsert c s.visited_spaces ≠ []
      intro hnil
      have : c ∈ hsInsert c s.visited_spaces := hsInsert_self c _
      rw [hnil] at this
      cases this
    · show (hsInsert c s.visited_spaces).Nodup
      exact hsInsert_nodup c _ hinv.2.1
    · show ∀ q ∈ hsInsert c s.visited_spaces, q.1 < H ∧ q.2 < W
      intro q hq
      rcases (hsInsert_mem_iff q c _).mp hq with hq | hq
      · subst hq; exact ⟨hc1, hc2⟩
      · exact hinv.2.2 q hq

theorem walk_fuel_bound (O : List (Nat × Nat)) (H W : Nat) :
    ∀ (n : Nat) (s : WalkState) (v : List (Nat × Nat)), WalkInv H W s →
      walk_maze_fuel O H W n s = some v → 1 ≤ v.length ∧ v.length ≤ H * W := by
  intro n
  induction n with
  | zero =>
    intro s v _ h
    cases h
  | succ n ih =>
    intro s v hinv h
    rw [walk_maze_fuel] at h
    cases hstep : stepWalk O H W s with
    | none =>
      rw [hstep] at h
      cases h
      obtain ⟨hne, hnd, hb⟩ := hinv
      constructor
      · have := List.length_pos.mpr hne
        omega
      · have hsub : s.visited_spaces.toFinset ⊆ Finset.range H ×ˢ Finset.range W := by
          intro q hq
          rw [List.mem_toFinset] at hq
          obtain ⟨h1, h2⟩ := hb q hq
          simp only [Finset.mem_product, Finset.mem_range]
          exact ⟨h1, h2⟩
        calc s.visited_spaces.length = s.visited_spaces.toFinset.card :=
            (List.toFinset_card_of_nodup hnd).symm
          _ ≤ (Finset.range H ×ˢ Finset.range W).card := Finset.card_le_card hsub
          _ = H * W := by rw [Finset.card_product, Finset.card_range, Finset.card_range]
    | some s2 =>
      rw [hstep] at h
      exact ih s2 v (stepWalk_inv O H W s s2 hstep hinv) h

/-- Whenever the loop check runs to `false` (the guard exits), the part-1
walk from the same position and facing exits within the same number of
iterations, whatever its visited set is. -/
theorem walk_follows (O : List (Nat × Nat)) (H W : Nat) :
    ∀ (n : Nat) (L : List (Nat × Nat × Direction)) (pos : Nat × Nat) (dir : Direction)
      (V : List (Nat × Nat)),
      walk_maze_and_check_for_loop_fuel O H W n ⟨L, pos, dir⟩ = some false →
      ∃ v, walk_maze_fuel O H W n ⟨V, pos, dir⟩ = some v := by
  intro n
  induction n with
  | zero =>
    intro L pos dir V h
    cases h
  | succ n ih =>
    intro L pos dir V h
    rw [walk_maze_and_check_for_loop_fuel, stepLoop_eq] at h
    rw [walk_maze_fuel, stepWalk_eq]
    cases hcl : classify O H W pos dir with
    | out =>
      rw [hcl] at h
      simp only [hcl]
      exact ⟨V, rfl⟩
    | collide c =>
      rw [hcl] at h
      simp only [] at h
      by_cases hm : (c.1, c.2, dir) ∈ L
      · rw [if_pos hm] at h
        exact absurd h (by simp)
      · rw [if_neg hm] at h
        simp only [hcl]
        exact ih ((c.1, c.2, dir) :: L) pos (next_direction dir) V h
    | advance c =>
      rw [hcl] at h
      simp only [] at h
      simp only [hcl]
      exact ih L c dir (hsInsert c V) h

/-- If a set of walk states is closed under `stepWalk`, the `walk_maze`
loop never breaks from any of them: no fuel is ever enough. -/
theorem closed_no_exit (O : List (Nat × Nat)) (H W : Nat) (S : List WalkState)
    (hS : ∀ t ∈ S, ∃ t2 ∈ S, stepWalk O H W t = some t2) :
    ∀ (n : Nat), ∀ t ∈ S, walk_maze_fuel O H W n t = none := by
  intro n
  induction n with
  | zero =>
    intro t _
    rfl
  | succ n ih =>
    intro t ht
    obtain ⟨t2, ht2, hstep⟩ := hS t ht
    rw [walk_maze_fuel, hstep]
    exact ih t2 ht2

/-! ### Parsing: helper notions and lemmas -/

/-- The caret (start marker) positions of row `x` from column `y` on, in
left-to-right order. -/
def caretsRow (x : Nat) : Nat → List Char → List (Nat × Nat)
  | _, [] => []
  | y, c :: cs => (if c = '^' then [(x, y)] else []) ++ caretsRow x (y + 1) cs

/-- All caret positions of the grid from row `x` on, in row-major order. -/
def caretsAll : Nat → List (List Char) → List (Nat × Nat)
  | _, [] => []
  | x, l :: ls => caretsRow x 0 l ++ caretsAll (x + 1) ls

theorem from_str_some_ok (ls : List (List Char)) (r : Except String Problem)
    (h : from_str ls = some r) : ∃ p, r = Except.ok p := by
  unfold from_str at h
  cases ls with
  | nil => cases h
  | cons l0 ls2 =>
    cases hscan : scanRows 0 (l0 :: ls2) [] (0, 0) with
    | none => rw [hscan] at h; cases h
    | some res =>
      rw [hscan] at h
      cases h
      exact ⟨_, rfl⟩

theorem getLast?_getD_cons :
    ∀ (l : List (Nat × Nat)) (a d : Nat × Nat),
      ((a :: l).getLast?).getD d = (l.getLast?).getD a := by
  intro l
  induction l with
  | nil =>
    intro a d
    rfl
  | cons b t ih =>
    intro a d
    rw [List.getLast?_cons_cons, ih b d, ih b a]

theorem getLast?_getD_append (d : Nat × Nat) :
    ∀ (l1 l2 : List (Nat × Nat)),
      ((l1 ++ l2).getLast?).getD d = (l2.getLast?).getD ((l1.getLast?).getD d) := by
  intro l1
  induction l1 generalizing d with
  | nil =>
    intro l2
    rfl
  | cons a t ih =>
    intro l2
    rw [List.cons_append, getLast?_getD_cons, ih a l2, getLast?_getD_cons]

theorem scanRow_start (x : Nat) :
    ∀ (cs : List Char) (y : Nat) (obs : List (Nat × Nat)) (st : Nat × Nat)
      (obs2 : List (Nat × Nat)) (st2 : Nat × Nat),
      scanRow x y cs obs st = some (obs2, st2) →
      st2 = ((caretsRow x y cs).getLast?).getD st := by
  intro cs
  induction cs with
  | nil =>
    intro y obs st obs2 st2 h
    cases h
    rfl
  | cons c cs ih =>
    intro y obs st obs2 st2 h
    rw [scanRow] at h
    rw [caretsRow]
    by_cases h1 : c = '^'
    · rw [if_pos h1] at h
      rw [if_pos h1, List.singleton_append, getLast?_getD_cons]
      exact ih (y + 1) obs (x, y) obs2 st2 h
    · rw [if_neg h1] at h
      rw [if_neg h1, List.nil_append]
      by_cases h2 : c = '.'
      · rw [if_pos h2] at h
        exact ih (y + 1) obs st obs2 st2 h
      · rw [if_neg h2] at h
        by_cases h3 : c = '#'
        · rw [if_pos h3] at h
          exact ih (y + 1) (obs ++ [(x, y)]) st obs2 st2 h
        · rw [if_neg h3] at h
          cases h

theorem scanRows_start :
    ∀ (ls : List (List Char)) (x : Nat) (obs : List (Nat × Nat)) (st : Nat × Nat)
      (obs2 : List (Nat × Nat)) (st2 : Nat × Nat),
      scanRows x ls obs st = some (obs2, st2) →
      st2 = ((caretsAll x ls).getLast?).getD st := by
  intro ls
  induction ls with
  | nil =>
    intro x obs st obs2 st2 h
    cases h
    rfl
  | cons l ls ih =>
    intro x obs st obs2 st2 h
    rw [scanRows] at h
    rw [caretsAll, getLast?_getD_append]
    cases hrow : scanRow x 0 l obs st with
    | none => rw [hrow] at h; cases h
    | some res =>
      rw [hrow] at h
      have hst1 := scanRow_start x l 0 obs st res.1 res.2 (by rw [hrow])
      rw [← hst1]
      exact ih (x + 1) res.1 res.2 obs2 st2 h

/-- A character the parser panics on (`unreachable!`). -/
def badChar (c : Char) : Prop := c ≠ '.' ∧ c ≠ '#' ∧ c ≠ '^'

instance (c : Char) : Decidable (badChar c) := by
  unfold badChar
  infer_instance

theorem scanRow_eq_none (x : Nat) :
    ∀ (cs : List Char) (y : Nat) (obs : List (Nat × Nat)) (st : Nat × Nat),
      (scanRow x y cs obs st = none ↔ ∃ c ∈ cs, badChar c) := by
  intro cs
  induction cs with
  | nil =>
    intro y obs st
    constructor
    · intro h; cases h
    · rintro ⟨c, hc, -⟩; cases hc
  | cons c cs ih =>
    intro y obs st
    rw [scanRow]
    by_cases h1 : c = '^'
    · rw [if_pos h1, ih (y + 1) obs (x, y)]
      constructor
      · rintro ⟨a, ha, hb⟩
        exact ⟨a, List.mem_cons_of_mem c ha, hb⟩
      · rintro ⟨a, ha, hb⟩
        rcases List.mem_cons.mp ha with rfl | ha
        · exact absurd h1 hb.2.2
        · exact ⟨a, ha, hb⟩
    · rw [if_neg h1]
      by_cases h2 : c = '.'
      · rw [if_pos h2, ih (y + 1) obs st]
        constructor
        · rintro ⟨a, ha, hb⟩
          exact ⟨a, List.mem_cons_of_mem c ha, hb⟩
        · rintro ⟨a, ha, hb⟩
          rcases List.mem_cons.mp ha with rfl | ha
          · exact absurd h2 hb.1
          · exact ⟨a, ha, hb⟩
      · rw [if_neg h2]
        by_cases h3 : c = '#'
        · rw [if_pos h3, ih (y + 1) (obs ++ [(x, y)]) st]
          constructor
          · rintro ⟨a, ha, hb⟩
            exact ⟨a, List.mem_cons_of_mem c ha, hb⟩
          · rintro ⟨a, ha, hb⟩
            rcases List.mem_cons.mp ha with rfl | ha
            · exact absurd h3 hb.2.1
            · exact ⟨a, ha, hb⟩
        · rw [if_neg h3]
          constructor
          · intro _
            exact ⟨c, List.mem_cons_self c cs, h2, h3, h1⟩
          · intro _
            rfl

theorem scanRows_eq_none :
    ∀ (ls : List (List Char)) (x : Nat) (obs : List (Nat × Nat)) (st : Nat × Nat),
      (scanRows x ls obs st = none ↔ ∃ l ∈ ls, ∃ c ∈ l, badChar c) := by
  intro ls
  induction ls with
  | nil =>
    intro x obs st
    constructor
    · intro h; cases h
    · rintro ⟨l, hl, -⟩; cases hl
  | cons l ls ih =>
    intro x obs st
    rw [scanRows]
    cases hrow : scanRow x 0 l obs st with
    | none =>
      constructor
      · intro _
        exact ⟨l, List.mem_cons_self l ls, (scanRow_eq_none x l 0 obs st).mp hrow⟩
      · intro _
        rfl
    | some res =>
      have hgood : ¬ ∃ c ∈ l, badChar c := by
        rw [← scanRow_eq_none x l 0 obs st, hrow]
        simp
      rw [ih (x + 1) res.1 res.2]
      constructor
      · rintro ⟨a, ha, hb⟩
        exact ⟨a, List.mem_cons_of_mem l ha, hb⟩
      · rintro ⟨a, ha, hb⟩
        rcases List.mem_cons.mp ha with rfl | ha
        · exact absurd hb hgood
        · exact ⟨a, ha, hb⟩

theorem from_str_eq_none (ls : List (List Char)) :
    from_str ls = none ↔ (ls = [] ∨ ∃ l ∈ ls, ∃ c ∈ l, badChar c) := by
  unfold from_str
  cases ls with
  | nil =>
    constructor
    · intro _
      exact Or.inl rfl
    · intro _
      rfl
  | cons l0 ls2 =>
    cases hscan : scanRows 0 (l0 :: ls2) [] (0, 0) with
    | none =>
      constructor
      · intro _
        exact Or.inr ((scanRows_eq_none (l0 :: ls2) 0 [] (0, 0)).mp hscan)
      · intro _
        rfl
    | some res =>
      constructor
      · intro h
        cases h
      · rintro (h | h)
        · cases h
        · rw [← scanRows_eq_none (l0 :: ls2) 0 [] (0, 0)] at h
          rw [hscan] at h
          cases h

theorem caretsRow_eq_nil (x : Nat) :
    ∀ (cs : List Char) (y : Nat), (∀ c ∈ cs, c ≠ '^') → caretsRow x y cs = [] := by
  intro cs
  induction cs with
  | nil =>
    intro y _
    rfl
  | cons c cs ih =>
    intro y h
    rw [caretsRow, if_neg (h c (List.mem_cons_self c cs)), List.nil_append]
    exact ih (y + 1) (fun a ha => h a (List.mem_cons_of_mem c ha))

theorem caretsAll_eq_nil :
    ∀ (ls : List (List Char)) (x : Nat),
      (∀ l ∈ ls, ∀ c ∈ l, c ≠ '^') → caretsAll x ls = [] := by
  intro ls
  induction ls with
  | nil =>
    intro x _
    rfl
  | cons l ls ih =>
    intro x h
    rw [caretsAll, caretsRow_eq_nil x l 0 (h l (List.mem_cons_self l ls)), List.nil_append]
    exact ih (x + 1) (fun a ha => h a (List.mem_cons_of_mem l ha))

/-! ### Claim theorems -/

/-- Claim C1: for every grid, obstacle set, start position and starting
facing, the loop check returns `true` exactly when the guard's trajectory
repeats an (obstacle-cell, facing-at-collision) pair within the given
number of loop iterations — each collision event carries the facing held
at collision time, before the clockwise rotation — and returns `false`
exactly when the guard steps outside the grid bounds before any repeat. -/
theorem claim_C1_loop_check_correct (O : List (Nat × Nat)) (H W : Nat)
    (start : Nat × Nat) (dir : Direction) (n : Nat) :
    (walk_maze_and_check_for_loop n start dir O H W = some true ↔
      ¬ (pureEvents O H W n start dir).Nodup) ∧
    (walk_maze_and_check_for_loop n start dir O H W = some false ↔
      pureExits O H W n start dir = true ∧ (pureEvents O H W n start dir).Nodup) := by
  unfold walk_maze_and_check_for_loop initLoop
  constructor
  · have h := loop_true_iff O H W n [] start dir List.nodup_nil
    rwa [List.nil_append] at h
  · have h := loop_false_iff O H W n [] start dir List.nodup_nil
    rwa [List.nil_append] at h

/-- Claim C2: for every grid, obstacle set and start state the loop check
terminates — some fuel makes it return a Boolean — and every reachable
collision log holds at most `height*width*4` entries, so at most
`height*width*4` collision events record a new entry and a possible
`height*width*4 + 1`-st collision can only be the repeat that returns
`true`. -/
theorem claim_C2_loop_check_total (O : List (Nat × Nat)) (H W : Nat)
    (start : Nat × Nat) (dir : Direction) :
    (∃ n b, walk_maze_and_check_for_loop n start dir O H W = some b) ∧
    (∀ (k : Nat) (s2 : LoopState), loopReach O H W k (initLoop start dir) = some s2 →
      s2.collided_obstacles.length ≤ H * W * 4) := by
  constructor
  · exact hasLoop_total O H W (initLoop start dir)
  · intro k s2 h
    exact loopInv_length_le H W _ (loopReach_inv O H W k _ s2 h (loopInv_nil H W))

theorem claim_C2_witness :
    (initLoop (0, 0) Direction.Up).collided_obstacles.length ≤ 1 * 1 * 4 :=
  (claim_C2_loop_check_total [] 1 1 (0, 0) Direction.Up).2 0
    (initLoop (0, 0) Direction.Up) rfl

/-- Claim C3 is false as stated: `loopGridLines` is a syntactically valid
grid (it parses), yet the part-1 walk from its parsed start position never
terminates — no amount of fuel makes `walk_maze` return a value. -/
theorem claim_C3_counterexample :
    from_str loopGridLines = some (Except.ok loopProblem) ∧
    ¬ ∃ (n : Nat) (r : Nat), walk_maze n loopProblem.starting_position
        loopProblem.obstacles loopProblem.map_height loopProblem.map_width = some r := by
  constructor
  · decide
  · rintro ⟨n, r, h⟩
    have hS : ∀ t ∈ walkOrbit loopProblem.obstacles 4 4 (initWalk (2, 1)) 16,
        ∃ t2 ∈ walkOrbit loopProblem.obstacles 4 4 (initWalk (2, 1)) 16,
          stepWalk loopProblem.obstacles 4 4 t = some t2 := by decide
    have hmem : initWalk (2, 1) ∈
        walkOrbit loopProblem.obstacles 4 4 (initWalk (2, 1)) 16 := by decide
    have hnone := closed_no_exit loopProblem.obstacles 4 4 _ hS n _ hmem
    unfold walk_maze at h
    rw [show loopProblem.starting_position = (2, 1) from rfl,
      show loopProblem.map_height = 4 from rfl,
      show loopProblem.map_width = 4 from rfl, hnone] at h
    cases h

/-- Claim C3 amended: the part-1 walk terminates whenever the loop check
from the same start (facing Up, empty log) reports no loop within the same
number of iterations — i.e. whenever the guard's path exits the grid; by
the counterexample, grids whose layout traps the guard make `walk_maze`
run forever, so loop-freedom is a necessary hypothesis. -/
theorem claim_C3_walk_terminates_when_loop_free (O : List (Nat × Nat)) (H W : Nat)
    (start : Nat × Nat) (n : Nat)
    (h : walk_maze_and_check_for_loop n start .Up O H W = some false) :
    ∃ r, walk_maze n start O H W = some r := by
  unfold walk_maze_and_check_for_loop at h
  obtain ⟨v, hv⟩ := walk_follows O H W n [] start .Up [start] h
  refine ⟨v.length, ?_⟩
  unfold walk_maze initWalk
  rw [hv]
  rfl

theorem claim_C3_witness : ∃ r, walk_maze 1 (0, 0) [] 1 1 = some r :=
  claim_C3_walk_terminates_when_loop_free [] 1 1 (0, 0) 1 (by decide)

/-- Claim C4 is false as stated: an input whose rows have differing
lengths and which has no start marker parses successfully to an `Ok`
value — no `Err` result is produced — and so does an input with a
duplicate start marker. -/
theorem claim_C4_counterexample :
    from_str [['.'], ['.', '.']] = some (Except.ok ⟨2, 1, [], (0, 0)⟩) ∧
    from_str [['^'], ['^']] = some (Except.ok ⟨2, 1, [], (1, 0)⟩) := by
  decide

/-- Claim C4 amended: `from_str` never returns an `Err`: it panics
(`unreachable!` on an unknown character, `unwrap` on zero lines — result
`none` in the model) exactly on inputs that contain a character other
than '.', '#', '^' or that have zero lines; every other input — ragged
rows, missing or duplicate start markers included — parses to an `Ok`
`Problem`. -/
theorem claim_C4_parse_failure_semantics :
    (∀ ls, from_str ls = none ↔
      (ls = [] ∨ ∃ l ∈ ls, ∃ c ∈ l, c ≠ '.' ∧ c ≠ '#' ∧ c ≠ '^')) ∧
    (∀ ls r, from_str ls = some r → ∃ p, r = Except.ok p) := by
  constructor
  · intro ls
    exact from_str_eq_none ls
  · exact from_str_some_ok

theorem claim_C4_witness :
    ∃ p, (Except.ok (⟨1, 1, [], (0, 0)⟩ : Problem) : Except String Problem) =
      Except.ok p :=
  claim_C4_parse_failure_semantics.2 [['.']] (Except.ok ⟨1, 1, [], (0, 0)⟩) (by decide)

set_option maxRecDepth 4000 in
/-- Claim C5: the standard 10×10 AoC day-6 sample grid parses to
`sampleProblem`, and part 1 (`solve_part_1` / `countVisited`) returns
exactly 41 on it. -/
theorem claim_C5_sample_part1 :
    from_str sampleLines = some (Except.ok sampleProblem) ∧
    solve_part_1 1000 sampleProblem = some 41 := by
  decide

set_option maxRecDepth 8000 in
/-- Claim C6: on the parsed sample grid, from the parsed start facing Up,
the loop check returns `false` on the unmodified obstacle set and returns
`true` when any single one of the six probe cells is added. -/
theorem claim_C6_sample_loop_probes :
    from_str sampleLines = some (Except.ok sampleProblem) ∧
    walk_maze_and_check_for_loop 2000 sampleProblem.starting_position .Up
      sampleProblem.obstacles sampleProblem.map_height sampleProblem.map_width =
      some false ∧
    walk_maze_and_check_for_loop 2000 sampleProblem.starting_position .Up
      ((6, 3) :: sampleProblem.obstacles) sampleProblem.map_height
      sampleProblem.map_width = some true ∧
    walk_maze_and_check_for_loop 2000 sampleProblem.starting_position .Up
      ((7, 6) :: sampleProblem.obstacles) sampleProblem.map_height
      sampleProblem.map_width = some true ∧
    walk_maze_and_check_for_loop 2000 sampleProblem.starting_position .Up
      ((7, 7) :: sampleProblem.obstacles) sampleProblem.map_height
      sampleProblem.map_width = some true ∧
    walk_maze_and_check_for_loop 2000 sampleProblem.starting_position .Up
      ((8, 1) :: sampleProblem.obstacles) sampleProblem.map_height
      sampleProblem.map_width = some true ∧
    walk_maze_and_check_for_loop 2000 sampleProblem.starting_position .Up
      ((8, 3) :: sampleProblem.obstacles) sampleProblem.map_height
      sampleProblem.map_width = some true ∧
    walk_maze_and_check_for_loop 2000 sampleProblem.starting_position .Up
      ((9, 7) :: sampleProblem.obstacles) sampleProblem.map_height
      sampleProblem.map_width = some true := by
  decide

/-- Claim C7: in any guard state whose next cell (one unit ahead in the
current facing) is an in-bounds obstacle, one application of the movement
model leaves the position and the visited set unchanged and advances the
facing exactly one step along the clockwise cycle Up→Right→Down→Left→Up. -/
theorem claim_C7_turn_rule (O : List (Nat × Nat)) (H W : Nat) (s : WalkState)
    (next_x next_y : Nat)
    (hx : checkedAddSigned s.current_position.1
        (get_movement_delta s.movement_direction).1 = some next_x)
    (hy : checkedAddSigned s.current_position.2
        (get_movement_delta s.movement_direction).2 = some next_y)
    (hbx : next_x < H) (hby : next_y < W) (hobs : (next_x, next_y) ∈ O) :
    stepWalk O H W s =
      some ⟨s.visited_spaces, s.current_position,
        next_direction s.movement_direction⟩ ∧
    next_direction .Up = .Right ∧ next_direction .Right = .Down ∧
    next_direction .Down = .Left ∧ next_direction .Left = .Up := by
  refine ⟨?_, rfl, rfl, rfl, rfl⟩
  have hcl : classify O H W s.current_position s.movement_direction =
      .collide (next_x, next_y) := by
    simp only [classify, hx, hy]
    rw [if_neg (by omega), if_pos hobs]
  rw [stepWalk_eq, hcl]

theorem claim_C7_witness :
    stepWalk [(0, 1)] 2 2 ⟨[(1, 1)], (1, 1), .Up⟩ =
      some ⟨[(1, 1)], (1, 1), next_direction .Up⟩ ∧
    next_direction .Up = .Right ∧ next_direction .Right = .Down ∧
    next_direction .Down = .Left ∧ next_direction .Left = .Up :=
  claim_C7_turn_rule [(0, 1)] 2 2 ⟨[(1, 1)], (1, 1), .Up⟩ 0 1
    (by decide) (by decide) (by decide) (by decide) (by decide)

/-- Claim C8: with an in-bounds start position, whenever `walk_maze`
returns, its result is at least 1 (the start cell is always counted)
and at most `height*width`. -/
theorem claim_C8_visited_bounds (O : List (Nat × Nat)) (H W : Nat)
    (start : Nat × Nat) (n : Nat) (r : Nat)
    (h1 : start.1 < H) (h2 : start.2 < W)
    (h : walk_maze n start O H W = some r) : 1 ≤ r ∧ r ≤ H * W := by
  unfold walk_maze at h
  cases hv : walk_maze_fuel O H W n (initWalk start) with
  | none => rw [hv] at h; cases h
  | some v =>
    rw [hv, Option.map_some'] at h
    cases h
    have hinv : WalkInv H W (initWalk start) := by
      refine ⟨?_, ?_, ?_⟩
      · exact List.cons_ne_nil start []
      · exact List.nodup_singleton start
      · intro q hq
        have hq2 : q ∈ [start] := hq
        rw [List.mem_singleton] at hq2
        subst hq2
        exact ⟨h1, h2⟩
    exact walk_fuel_bound O H W n (initWalk start) v hinv hv

theorem claim_C8_witness : 1 ≤ 1 ∧ 1 ≤ 1 * 1 :=
  claim_C8_visited_bounds [] 1 1 (0, 0) 1 1 (by decide) (by decide) (by decide)

/-- Claim C9: `from_str` never produces the `Err` variant — whatever it
returns is `Ok` — while an input with an unrecognized character and the
zero-line input make it panic (model `none`) rather than yield a
recoverable error. -/
theorem claim_C9_no_err :
    (∀ ls r, from_str ls = some r → ∃ p, r = Except.ok p) ∧
    from_str [] = none ∧ from_str [['a']] = none := by
  refine ⟨from_str_some_ok, rfl, by decide⟩

theorem claim_C9_witness :
    ∃ p, (Except.ok (⟨1, 2, [(0, 1)], (0, 0)⟩ : Problem) : Except String Problem) =
      Except.ok p :=
  claim_C9_no_err.1 [['.', '#']] (Except.ok ⟨1, 2, [(0, 1)], (0, 0)⟩) (by decide)

/-- Claim C10: parsing sets the starting position to the last caret of
the input in row-major order (the fold keeps overwriting it), defaulting
to (0,0); and every caret-free input over '.' and '#' with at least one
line parses successfully with starting position (0,0). -/
theorem claim_C10_start_marker :
    (∀ ls p, from_str ls = some (Except.ok p) →
      p.starting_position = ((caretsAll 0 ls).getLast?).getD (0, 0)) ∧
    (∀ ls, ls ≠ [] → (∀ l ∈ ls, ∀ c ∈ l, c = '.' ∨ c = '#') →
      ∃ p, from_str ls = some (Except.ok p) ∧ p.starting_position = (0, 0)) := by
  constructor
  · intro ls p h
    unfold from_str at h
    cases ls with
    | nil => cases h
    | cons l0 ls2 =>
      cases hscan : scanRows 0 (l0 :: ls2) [] (0, 0) with
      | none => rw [hscan] at h; cases h
      | some res =>
        rw [hscan] at h
        cases h
        exact scanRows_start (l0 :: ls2) 0 [] (0, 0) res.1 res.2 (by rw [hscan])
  · intro ls hne hchars
    cases ls with
    | nil => exact absurd rfl hne
    | cons l0 ls2 =>
      have hnotnone : scanRows 0 (l0 :: ls2) [] (0, 0) ≠ none := by
        intro hnone
        rw [scanRows_eq_none] at hnone
        obtain ⟨l, hl, c, hc, hbad⟩ := hnone
        rcases hchars l hl c hc with rfl | rfl
        · exact hbad.1 rfl
        · exact hbad.2.1 rfl
      cases hscan : scanRows 0 (l0 :: ls2) [] (0, 0) with
      | none => exact absurd hscan hnotnone
      | some res =>
        refine ⟨⟨(l0 :: ls2).length, l0.length, res.1, res.2⟩, ?_, ?_⟩
        · unfold from_str
          rw [hscan]
        · show res.2 = (0, 0)
          have hst := scanRows_start (l0 :: ls2) 0 [] (0, 0) res.1 res.2 (by rw [hscan])
          have hnil : caretsAll 0 (l0 :: ls2) = [] := by
            apply caretsAll_eq_nil
            intro l hl c hc
            rcases hchars l hl c hc with rfl | rfl
            · decide
            · decide
          rw [hnil] at hst
          exact hst

theorem claim_C10_witness :
    ∃ p, from_str [['#', '.']] = some (Except.ok p) ∧ p.starting_position = (0, 0) :=
  claim_C10_start_marker.2 [['#', '.']] (by decide) (by decide)

end Day06
